import Mathlib

/-!
Shallow embedding of `src/websocket/CoinbaseWebSocket.ts` (class
`CoinbaseWebSocket`): the tick filter, the one-minute candle aggregator,
the bounded kline history buffer, the persistence error handling, and the
connection lifecycle handlers (`disconnect`, `handleClose`,
`handleReconnect`, `handleOpen`).

Modelling conventions:
- JavaScript numbers (results of `parseFloat` and arithmetic on them) are
  modelled as `Option ℚ`, where `none` stands for NaN (the result of
  parsing a missing or non-numeric field).  `Math.max` / `Math.min` / `+`
  propagate NaN; `<=` is false when either side is NaN, exactly as in JS.
- Event times (`new Date(data.time).getTime()`) are modelled as integers
  (epoch milliseconds); `Math.floor(time / 60000) * 60000` is `Int.fdiv`,
  which floors like `Math.floor`.
- The outcome of `this.klineService.saveKline` is an environment input
  (`SaveResult`), passed to each processing step.
- Observable actions (pushing a completed kline into the buffer, handing
  it to the persistence service, logging a save error, dropping a tick
  while the in-flight rollover flag is set) are recorded in an `Effect`
  trace returned alongside the new state.
-/

namespace CoinbaseWebSocket

/-- A JavaScript float value: `none` models NaN. -/
abbrev JsNum := Option ℚ

/-- JS addition: NaN propagates. -/
def jadd : JsNum → JsNum → JsNum
  | some a, some b => some (a + b)
  | _, _ => none

/-- JS `Math.max`: NaN propagates. -/
def jmax : JsNum → JsNum → JsNum
  | some a, some b => some (max a b)
  | _, _ => none

/-- JS `Math.min`: NaN propagates. -/
def jmin : JsNum → JsNum → JsNum
  | some a, some b => some (min a b)
  | _, _ => none

/-- JS `<=` comparison: false when either side is NaN. -/
def jle : JsNum → JsNum → Bool
  | some a, some b => decide (a ≤ b)
  | _, _ => false

/-- Structure `BaseKline` from `src/types/kline` as used by the aggregator. -/
structure BaseKline where
  symbol : String
  interval : String
  openTime : ℤ
  closeTime : ℤ
  «open» : JsNum
  high : JsNum
  low : JsNum
  close : JsNum
  volume : JsNum
  trades : ℕ
deriving DecidableEq

/-- Structure `ExchangeKline`: a `BaseKline` tagged with the exchange identifier. -/
structure ExchangeKline extends BaseKline where
  exchange : String
deriving DecidableEq

/-- The fields of an inbound ticker message that the code consumes, after
parsing: `time` as epoch milliseconds, `price` and `last_size` as the
`parseFloat` results (`none` = NaN, e.g. a missing or non-numeric field). -/
structure TickerMsg where
  time : ℤ
  price : JsNum
  last_size : JsNum
deriving DecidableEq

/-- Outcome of `klineService.saveKline`: resolves, or rejects with an
`Error` carrying the given `name`. -/
inductive SaveResult where
  | success : SaveResult
  | error : String → SaveResult
deriving DecidableEq

/-- Observable actions of one processing step, in program order. -/
inductive Effect where
  | pushedToBuffer : ExchangeKline → Effect
  | handedToPersistence : ExchangeKline → Effect
  | loggedSaveError : String → Effect
  | droppedWhileProcessing : Effect
deriving DecidableEq

/-- The mutable fields of the `CoinbaseWebSocket` class.  `ws` is `some ()`
when the field holds a socket object and `none` when it is null. -/
structure WSState where
  ws : Option Unit
  reconnectAttempts : ℕ
  currentKline : Option BaseKline
  klineStartTime : ℤ
  klines : List ExchangeKline
  lastTickTime : ℤ
  processingKline : Bool
deriving DecidableEq

def MAX_RECONNECT_ATTEMPTS : ℕ := 5

def RECONNECT_DELAY : ℕ := 5000

def MAX_KLINES : ℕ := 50

def EXCHANGE : String := "COINBASE"

/-- Field initializers of the class. -/
def initState : WSState :=
  { ws := none, reconnectAttempts := 0, currentKline := none,
    klineStartTime := 0, klines := [], lastTickTime := 0,
    processingKline := false }

/-- The window start `Math.floor(time / 60000) * 60000`. -/
def bucketOf (time : ℤ) : ℤ := Int.fdiv time 60000 * 60000

/-- Tagging a finished kline with the exchange identifier
(`{ ...this.currentKline, exchange: this.EXCHANGE }`). -/
def completeOf (k : BaseKline) : ExchangeKline := ⟨k, EXCHANGE⟩

/-- The new-kline object built at a rollover. -/
def freshKline (time : ℤ) (price size : JsNum) : BaseKline :=
  { symbol := "BTC-USD", interval := "1m",
    openTime := bucketOf time, closeTime := bucketOf time + 60000,
    «open» := price, high := price, low := price, close := price,
    volume := size, trades := 1 }

/-- The in-place update of the current kline on a same-window tick. -/
def updateKline (k : BaseKline) (price size : JsNum) : BaseKline :=
  { k with
    high := jmax k.high price, low := jmin k.low price,
    close := price, volume := jadd k.volume size, trades := k.trades + 1 }

/-- Buffer insertion `this.klines.unshift(completeKline); if (length > MAX_KLINES) pop()`. -/
def pushKline (k : ExchangeKline) (l : List ExchangeKline) : List ExchangeKline :=
  let l2 := k :: l
  if l2.length > MAX_KLINES then l2.dropLast else l2

/-- Log effects of the `try { await saveKline } catch` block: an error is
logged unless its name is `ConditionalCheckFailedException`. -/
def saveEffects (res : SaveResult) : List Effect :=
  match res with
  | .success => []
  | .error name =>
      if name = "ConditionalCheckFailedException" then [] else [.loggedSaveError name]

/-- Method `processTickerUpdate`, lines 75-145 of the source, as a state
transformer.  Here `res` is the response of the environment to the
`saveKline` call (ignored on paths that do not save). -/
def processTickerUpdate (s : WSState) (data : TickerMsg) (res : SaveResult) :
    WSState × List Effect :=
  let time := data.time
  if time ≤ s.lastTickTime then (s, [])
  else
    let s1 : WSState := { s with lastTickTime := time }
    let price := data.price
    let size := data.last_size
    let currentMinute := bucketOf time
    if s1.currentKline = none ∨ s1.klineStartTime < currentMinute then
      if s1.processingKline then (s1, [Effect.droppedWhileProcessing])
      else
        match s1.currentKline with
        | some ck =>
            let completeKline := completeOf ck
            ({ s1 with
               klines := pushKline completeKline s1.klines,
               klineStartTime := currentMinute,
               currentKline := some (freshKline time price size),
               processingKline := false },
             Effect.pushedToBuffer completeKline ::
               Effect.handedToPersistence completeKline :: saveEffects res)
        | none =>
            ({ s1 with
               klineStartTime := currentMinute,
               currentKline := some (freshKline time price size),
               processingKline := false }, [])
    else
      match s1.currentKline with
      | some ck => ({ s1 with currentKline := some (updateKline ck price size) }, [])
      | none => (s1, [])

/-- Sequential processing of a list of admitted-or-not ticker messages,
each paired with the save outcome supplied by the environment; effects are
concatenated
in order. -/
def processAll : WSState → List (TickerMsg × SaveResult) → WSState × List Effect
  | s, [] => (s, [])
  | s, x :: xs =>
      let r := processTickerUpdate s x.1 x.2
      let rest := processAll r.1 xs
      (rest.1, r.2 ++ rest.2)

/-- Method `getKlines` returns (a copy of) the kline buffer. -/
def getKlines (s : WSState) : List ExchangeKline := s.klines

/-- Action requested by `handleReconnect`: wait the given delay and call
`connect()` again, or log the terminal max-attempts diagnostic. -/
inductive ReconnectAction where
  | reconnectAfter : ℕ → ReconnectAction
  | terminalDiagnostic : ReconnectAction
deriving DecidableEq

/-- Method `handleReconnect`, lines 175-184. -/
def handleReconnect (s : WSState) : WSState × ReconnectAction :=
  if s.reconnectAttempts < MAX_RECONNECT_ATTEMPTS then
    ({ s with reconnectAttempts := s.reconnectAttempts + 1 },
     .reconnectAfter RECONNECT_DELAY)
  else (s, .terminalDiagnostic)

/-- Method `handleClose`, lines 170-173: unconditionally defers to
`handleReconnect`. -/
def handleClose (s : WSState) : WSState × ReconnectAction := handleReconnect s

/-- Method `handleOpen`, lines 48-62: resets the reconnect counter; the returned
flag records whether the subscribe message was sent. -/
def handleOpen (s : WSState) : WSState × Bool :=
  ({ s with reconnectAttempts := 0 }, s.ws.isSome)

/-- Method `disconnect`, lines 186-191: the returned flag records whether
`ws.close()` was invoked (and hence whether a close event will fire). -/
def disconnect (s : WSState) : WSState × Bool :=
  if s.ws.isSome then ({ s with ws := none }, true) else (s, false)

/-- The klines pushed into the history buffer along an effect trace, in
emission order. -/
def pushedOf (effs : List Effect) : List ExchangeKline :=
  effs.filterMap fun e =>
    match e with
    | .pushedToBuffer k => some k
    | _ => none

/-- The candle invariants of the spec (section 3) for a single kline. -/
def KlineInv (k : BaseKline) : Prop :=
  k.closeTime = k.openTime + 60000 ∧
  jle k.low k.«open» = true ∧ jle k.low k.close = true ∧ jle k.low k.high = true ∧
  jle k.«open» k.high = true ∧ jle k.close k.high = true ∧
  1 ≤ k.trades ∧ k.openTime % 60000 = 0

/-- The candle invariants on the current kline and on every buffered kline. -/
def StateKlineInv (s : WSState) : Prop :=
  (∀ k, s.currentKline = some k → KlineInv k) ∧
  (∀ ek ∈ s.klines, KlineInv ek.toBaseKline)

theorem jle_some {a b : JsNum} (h : jle a b = true) :
    ∃ x y, a = some x ∧ b = some y ∧ x ≤ y := by
  cases a <;> cases b <;> simp_all [jle]

theorem pushedOf_append (l1 l2 : List Effect) :
    pushedOf (l1 ++ l2) = pushedOf l1 ++ pushedOf l2 :=
  List.filterMap_append l1 l2 _

theorem self_mem_pushKline (c : ExchangeKline) (l : List ExchangeKline) :
    c ∈ pushKline c l := by
  cases l with
  | nil => simp [pushKline, MAX_KLINES]
  | cons b bs =>
      simp only [pushKline]
      split
      · simp [List.dropLast]
      · exact List.mem_cons_self _ _

theorem mem_pushKline {x c : ExchangeKline} {l : List ExchangeKline}
    (h : x ∈ pushKline c l) : x = c ∨ x ∈ l := by
  simp only [pushKline] at h
  split at h
  · have := (List.dropLast_sublist (c :: l)).mem h
    simpa using this
  · simpa using h

theorem jle_some_right {a b : JsNum} {x : ℚ} (h : jle a b = true) (ha : a = some x) :
    ∃ y, b = some y ∧ x ≤ y := by
  subst ha; cases b <;> simp_all [jle]

theorem pushKline_take (c : ExchangeKline) (l : List ExchangeKline) :
    pushKline c (l.take MAX_KLINES) = (c :: l).take MAX_KLINES := by
  simp only [pushKline, MAX_KLINES]
  by_cases h : l.length ≤ 49
  · have h1 : l.take 50 = l := List.take_of_length_le (by omega)
    have h2 : (c :: l).take 50 = c :: l :=
      List.take_of_length_le (by simp only [List.length_cons]; omega)
    rw [h1, h2, if_neg (by simp only [List.length_cons]; omega)]
  · have h1 : (l.take 50).length = 50 := by rw [List.length_take]; omega
    rw [if_pos (by simp only [gt_iff_lt, List.length_cons, h1]; omega)]
    rw [List.dropLast_eq_take]
    have h2 : (c :: l.take 50).length - 1 = 49 + 1 := by
      simp only [List.length_cons, h1]
    rw [h2, List.take_succ_cons, List.take_take]
    have h4 : (49 : ℕ) ⊓ 50 = 49 := by norm_num
    rw [h4]
    have h3 : (50 : ℕ) = 49 + 1 := rfl
    rw [h3, List.take_succ_cons]

theorem KlineInv_freshKline (t : ℤ) (p : ℚ) (z : JsNum) :
    KlineInv (freshKline t (some p) z) := by
  refine ⟨rfl, ?_, ?_, ?_, ?_, ?_, ?_, ?_⟩ <;>
    simp [freshKline, jle, bucketOf, Int.mul_emod_left]

theorem KlineInv_updateKline {k : BaseKline} (p : ℚ) (z : JsNum) (h : KlineInv k) :
    KlineInv (updateKline k (some p) z) := by
  obtain ⟨h1, h2, h3, h4, h5, h6, h7, h8⟩ := h
  obtain ⟨lo, hi, hlo, hhi, hlh⟩ := jle_some h4
  obtain ⟨o, ho, hloo⟩ := jle_some_right h2 hlo
  obtain ⟨c, hc, hlc⟩ := jle_some_right h3 hlo
  obtain ⟨hi2, hhi2, hoh2⟩ := jle_some_right h5 ho
  rw [hhi] at hhi2
  obtain rfl := Option.some.inj hhi2
  refine ⟨h1, ?_, ?_, ?_, ?_, ?_, ?_, h8⟩
  · simpa [updateKline, jmin, jle, hlo, ho] using le_trans (min_le_left lo p) hloo
  · simp [updateKline, jmin, jle, hlo]
  · simp [updateKline, jmin, jmax, jle, hlo, hhi]
  · simpa [updateKline, jmax, jle, ho, hhi] using le_trans hoh2 (le_max_left hi p)
  · simp [updateKline, jmax, jle, hhi]
  · show 1 ≤ k.trades + 1
    omega

theorem processTickerUpdate_drop (s : WSState) (msg : TickerMsg) (res : SaveResult)
    (h : msg.time ≤ s.lastTickTime) :
    processTickerUpdate s msg res = (s, []) := by
  simp [processTickerUpdate, h]

theorem processTickerUpdate_update (s : WSState) (msg : TickerMsg) (res : SaveResult)
    (k : BaseKline) (hk : s.currentKline = some k)
    (hadm : s.lastTickTime < msg.time)
    (hbuck : bucketOf msg.time ≤ s.klineStartTime) :
    processTickerUpdate s msg res =
      ({ s with
         lastTickTime := msg.time,
         currentKline := some (updateKline k msg.price msg.last_size) }, []) := by
  simp [processTickerUpdate, hk, not_le.mpr hadm, not_lt.mpr hbuck]

theorem processTickerUpdate_open (s : WSState) (msg : TickerMsg) (res : SaveResult)
    (hnone : s.currentKline = none) (hproc : s.processingKline = false)
    (hadm : s.lastTickTime < msg.time) :
    processTickerUpdate s msg res =
      ({ s with
         lastTickTime := msg.time,
         klineStartTime := bucketOf msg.time,
         currentKline := some (freshKline msg.time msg.price msg.last_size),
         processingKline := false }, []) := by
  simp [processTickerUpdate, hnone, hproc, not_le.mpr hadm]

theorem processTickerUpdate_rollover (s : WSState) (msg : TickerMsg) (res : SaveResult)
    (k : BaseKline) (hk : s.currentKline = some k) (hproc : s.processingKline = false)
    (hadm : s.lastTickTime < msg.time)
    (hbuck : s.klineStartTime < bucketOf msg.time) :
    processTickerUpdate s msg res =
      ({ s with
         lastTickTime := msg.time,
         klines := pushKline (completeOf k) s.klines,
         klineStartTime := bucketOf msg.time,
         currentKline := some (freshKline msg.time msg.price msg.last_size),
         processingKline := false },
       Effect.pushedToBuffer (completeOf k) ::
         Effect.handedToPersistence (completeOf k) :: saveEffects res) := by
  simp [processTickerUpdate, hk, hproc, not_le.mpr hadm, hbuck]

theorem processTickerUpdate_lastTickTime (s : WSState) (msg : TickerMsg) (res : SaveResult)
    (hadm : s.lastTickTime < msg.time) :
    (processTickerUpdate s msg res).1.lastTickTime = msg.time := by
  simp only [processTickerUpdate]
  rw [if_neg (not_le.mpr hadm)]
  split
  · split
    · rfl
    · split <;> rfl
  · split <;> rfl

theorem pushedOf_saveEffects (res : SaveResult) : pushedOf (saveEffects res) = [] := by
  cases res with
  | success => rfl
  | error n =>
      simp only [saveEffects]
      split <;> rfl

theorem processTickerUpdate_klines (s : WSState) (msg : TickerMsg) (res : SaveResult) :
    (processTickerUpdate s msg res).1.klines =
      (pushedOf (processTickerUpdate s msg res).2).foldl (fun l k => pushKline k l)
        s.klines := by
  simp only [processTickerUpdate]
  split
  · rfl
  · split
    · split
      · simp [pushedOf]
      · split
        · have h0 := pushedOf_saveEffects res
          simp only [pushedOf] at h0
          simp [pushedOf, h0]
        · simp [pushedOf]
    · split
      · simp [pushedOf]
      · simp [pushedOf]

theorem processAll_klines (inputs : List (TickerMsg × SaveResult)) : ∀ (s : WSState),
    (processAll s inputs).1.klines =
      (pushedOf (processAll s inputs).2).foldl (fun l k => pushKline k l) s.klines := by
  induction inputs with
  | nil => intro s; rfl
  | cons x xs ih =>
      intro s
      simp only [processAll]
      rw [ih, pushedOf_append, List.foldl_append,
        processTickerUpdate_klines s x.1 x.2]

theorem foldl_pushKline (E : List ExchangeKline) :
    E.foldl (fun l k => pushKline k l) [] = E.reverse.take MAX_KLINES := by
  induction E using List.reverseRecOn with
  | nil => rfl
  | append_singleton E c ih =>
      rw [List.foldl_append]
      simp only [List.foldl_cons, List.foldl_nil]
      rw [ih, pushKline_take, List.reverse_append]
      simp

theorem processTickerUpdate_inflight (s : WSState) (msg : TickerMsg) (res : SaveResult)
    (hproc : s.processingKline = true) (hadm : s.lastTickTime < msg.time)
    (hroll : s.currentKline = none ∨ s.klineStartTime < bucketOf msg.time) :
    processTickerUpdate s msg res =
      ({ s with lastTickTime := msg.time }, [Effect.droppedWhileProcessing]) := by
  rcases hroll with h | h
  · simp [processTickerUpdate, hproc, not_le.mpr hadm, h]
  · simp [processTickerUpdate, hproc, not_le.mpr hadm, h]

theorem processTickerUpdate_KlineInv (s : WSState) (msg : TickerMsg) (res : SaveResult)
    (hs : StateKlineInv s) (q : ℚ) (hq : msg.price = some q) :
    StateKlineInv (processTickerUpdate s msg res).1 ∧
    ∀ ek ∈ pushedOf (processTickerUpdate s msg res).2, KlineInv ek.toBaseKline := by
  obtain ⟨hcur, hbuf⟩ := hs
  by_cases hadm : msg.time ≤ s.lastTickTime
  · rw [processTickerUpdate_drop s msg res hadm]
    exact ⟨⟨hcur, hbuf⟩, by simp [pushedOf]⟩
  · push_neg at hadm
    rcases hck : s.currentKline with _ | ck
    · cases hproc : s.processingKline with
      | true =>
          rw [processTickerUpdate_inflight s msg res hproc hadm (Or.inl hck)]
          exact ⟨⟨fun k hk => hcur k hk, fun ek hek => hbuf ek hek⟩, by simp [pushedOf]⟩
      | false =>
          rw [processTickerUpdate_open s msg res hck hproc hadm]
          refine ⟨⟨?_, fun ek hek => hbuf ek hek⟩, by simp [pushedOf]⟩
          intro k hk
          obtain rfl := Option.some.inj hk
          rw [hq]
          exact KlineInv_freshKline msg.time q msg.last_size
    · by_cases hbuck : s.klineStartTime < bucketOf msg.time
      · cases hproc : s.processingKline with
        | true =>
            rw [processTickerUpdate_inflight s msg res hproc hadm (Or.inr hbuck)]
            exact ⟨⟨fun k hk => hcur k hk, fun ek hek => hbuf ek hek⟩, by simp [pushedOf]⟩
        | false =>
            rw [processTickerUpdate_rollover s msg res ck hck hproc hadm hbuck]
            refine ⟨⟨?_, ?_⟩, ?_⟩
            · intro k hk
              obtain rfl := Option.some.inj hk
              rw [hq]
              exact KlineInv_freshKline msg.time q msg.last_size
            · intro ek hek
              rcases mem_pushKline hek with rfl | h
              · exact hcur ck hck
              · exact hbuf ek h
            · intro ek hek
              have h0 := pushedOf_saveEffects res
              simp only [pushedOf] at h0 hek
              simp only [List.filterMap_cons, h0] at hek
              simp at hek
              subst hek
              exact hcur ck hck
      · push_neg at hbuck
        rw [processTickerUpdate_update s msg res ck hck hadm hbuck]
        refine ⟨⟨?_, fun ek hek => hbuf ek hek⟩, by simp [pushedOf]⟩
        intro k hk
        obtain rfl := Option.some.inj hk
        rw [hq]
        exact KlineInv_updateKline q msg.last_size (hcur ck hck)

theorem processAll_KlineInv (inputs : List (TickerMsg × SaveResult)) : ∀ (s : WSState),
    StateKlineInv s → (∀ x ∈ inputs, ∃ q, x.1.price = some q) →
    StateKlineInv (processAll s inputs).1 ∧
    ∀ ek ∈ pushedOf (processAll s inputs).2, KlineInv ek.toBaseKline := by
  induction inputs with
  | nil => intro s hs _; exact ⟨hs, by simp [pushedOf, processAll]⟩
  | cons x xs ih =>
      intro s hs hall
      obtain ⟨q, hq⟩ := hall x (List.mem_cons_self x xs)
      obtain ⟨h1, h2⟩ := processTickerUpdate_KlineInv s x.1 x.2 ⟨hs.1, hs.2⟩ q hq
      obtain ⟨h3, h4⟩ := ih (processTickerUpdate s x.1 x.2).1 h1
        (fun y hy => hall y (List.mem_cons_of_mem x hy))
      constructor
      · simpa [processAll] using h3
      · intro ek hek
        simp only [processAll] at hek
        rw [pushedOf_append] at hek
        rcases List.mem_append.mp hek with h | h
        · exact h2 ek h
        · exact h4 ek h

/-- A tick whose price and size parsed to real (non-NaN) numbers; used to
state the aggregation laws. -/
structure RatTick where
  time : ℤ
  price : ℚ
  size : ℚ
deriving DecidableEq

/-- The ticker message carrying a `RatTick`. -/
def RatTick.msg (t : RatTick) : TickerMsg := ⟨t.time, some t.price, some t.size⟩

theorem foldl_updateKline (ts : List RatTick) :
    ∀ (sym iv : String) (ot ct : ℤ) (o h l c v : ℚ) (tr : ℕ),
    ts.foldl (fun k u => updateKline k (some u.price) (some u.size))
      ⟨sym, iv, ot, ct, some o, some h, some l, some c, some v, tr⟩ =
      ⟨sym, iv, ot, ct, some o,
        some (ts.foldl (fun m u => max m u.price) h),
        some (ts.foldl (fun m u => min m u.price) l),
        some (ts.foldl (fun _ u => u.price) c),
        some (ts.foldl (fun m u => m + u.size) v), tr + ts.length⟩ := by
  induction ts with
  | nil => intro sym iv ot ct o h l c v tr; simp
  | cons t ts ih =>
      intro sym iv ot ct o h l c v tr
      simp only [List.foldl_cons]
      rw [show updateKline ⟨sym, iv, ot, ct, some o, some h, some l, some c, some v, tr⟩
            (some t.price) (some t.size) =
          ⟨sym, iv, ot, ct, some o, some (max h t.price), some (min l t.price),
            some t.price, some (v + t.size), tr + 1⟩ from by
        simp [updateKline, jmax, jmin, jadd]]
      rw [ih]
      simp only [List.length_cons, BaseKline.mk.injEq, true_and, and_true]
      omega

theorem processAll_cons (s : WSState) (m : TickerMsg) (r : SaveResult)
    (xs : List (TickerMsg × SaveResult)) :
    processAll s ((m, r) :: xs) =
      ((processAll (processTickerUpdate s m r).1 xs).1,
       (processTickerUpdate s m r).2 ++
         (processAll (processTickerUpdate s m r).1 xs).2) := rfl

theorem processAll_same_window (ts : List RatTick) :
    ∀ (s : WSState) (k : BaseKline),
    s.currentKline = some k →
    (∀ u ∈ ts, bucketOf u.time = s.klineStartTime) →
    List.Chain (· < ·) s.lastTickTime (ts.map RatTick.time) →
    processAll s (ts.map fun u => (u.msg, SaveResult.success)) =
      ({ s with
         currentKline :=
           some (ts.foldl (fun k2 u => updateKline k2 (some u.price) (some u.size)) k),
         lastTickTime := (ts.map RatTick.time).foldl (fun _ x => x) s.lastTickTime },
       []) := by
  induction ts with
  | nil =>
      intro s k hk _ _
      simp only [List.map_nil, processAll, List.foldl_nil]
      rw [← hk]
  | cons t ts ih =>
      intro s k hk hbuck hchain
      obtain ⟨hadm, hchain2⟩ := List.chain_cons.mp hchain
      have hstep : processTickerUpdate s t.msg SaveResult.success =
          ({ s with
             lastTickTime := t.time,
             currentKline := some (updateKline k (some t.price) (some t.size)) }, []) := by
        have h1 := processTickerUpdate_update s t.msg SaveResult.success k hk hadm
          (le_of_eq (hbuck t (List.mem_cons_self t ts)))
        simpa [RatTick.msg] using h1
      have hrest := ih
        ({ s with
           lastTickTime := t.time,
           currentKline := some (updateKline k (some t.price) (some t.size)) })
        (updateKline k (some t.price) (some t.size)) rfl
        (fun u hu => hbuck u (List.mem_cons_of_mem t hu)) hchain2
      simp only [List.map_cons, processAll_cons, hstep, hrest]
      simp [List.foldl_cons]

/-- A state with an open socket and fresh counters. -/
def connectedState : WSState := { initState with ws := some () }

/-- A state whose reconnect budget is exhausted. -/
def exhaustedState : WSState :=
  { initState with reconnectAttempts := MAX_RECONNECT_ATTEMPTS }

/-- Claim C2: a tick is admitted iff its `eventTimeMillis` is strictly
greater than the watermark `lastTickTime` (initially 0); a tick at or below
the watermark is silently dropped with every piece of state unchanged and
no emission; on admission the watermark is set to the tick time before any
further processing — it equals the tick time in the post-state of every
admitted path, including the path that drops the tick because a rollover is
in flight. -/
theorem c2_tick_filter (s : WSState) (msg : TickerMsg) (res : SaveResult) :
    initState.lastTickTime = 0 ∧
    (msg.time ≤ s.lastTickTime → processTickerUpdate s msg res = (s, [])) ∧
    (s.lastTickTime < msg.time →
      (processTickerUpdate s msg res).1.lastTickTime = msg.time) :=
  ⟨rfl, processTickerUpdate_drop s msg res, processTickerUpdate_lastTickTime s msg res⟩

/-- Witness for C2 at concrete inputs: a tick at the initial watermark 0 is
dropped without any state change, and an admitted tick at time 1 advances
the watermark to 1. -/
theorem c2_tick_filter_witness :
    processTickerUpdate initState ⟨0, some 100, some 1⟩ SaveResult.success =
      (initState, []) ∧
    (processTickerUpdate initState ⟨1, some 100, some 1⟩
      SaveResult.success).1.lastTickTime = 1 :=
  ⟨(c2_tick_filter initState ⟨0, some 100, some 1⟩ SaveResult.success).2.1 (by decide),
   (c2_tick_filter initState ⟨1, some 100, some 1⟩ SaveResult.success).2.2 (by decide)⟩

/-- Claim C5: along any run from the initial state the history buffer holds
at most `MAX_KLINES` (= 50) completed klines, and `getKlines` returns
exactly the most recent completions, newest first — the reverse of the
emission order truncated to the 50 most recent; each completion inserts at
the head and evicts exactly the tail element once the length would exceed
50 (`pushKline`).  In this pure model `getKlines` returns the buffer value
itself; the defensive copy `[...this.klines]` in the source has no
distinguishable content here. -/
theorem c5_history_buffer (inputs : List (TickerMsg × SaveResult)) :
    getKlines (processAll initState inputs).1 =
      (pushedOf (processAll initState inputs).2).reverse.take MAX_KLINES ∧
    (getKlines (processAll initState inputs).1).length ≤ MAX_KLINES := by
  have h1 := processAll_klines inputs initState
  have h2 : (processAll initState inputs).1.klines =
      (pushedOf (processAll initState inputs).2).reverse.take MAX_KLINES := by
    rw [h1]
    exact foldl_pushKline _
  refine ⟨h2, ?_⟩
  show ((processAll initState inputs).1.klines).length ≤ MAX_KLINES
  rw [h2]
  exact List.length_take_le _ _

/-- Claim C7 counterexample: on a connected instance, `disconnect()` invokes
`ws.close()` (so a close event fires for that call chain), and processing
that close event re-enters the reconnect path: `handleClose` defers to
`handleReconnect`, which increments the attempt counter and schedules
`connect()` after 5000 ms — a further reconnection attempt is made. -/
theorem c7_counterexample :
    (disconnect connectedState).2 = true ∧
    handleClose (disconnect connectedState).1 =
      ({ (disconnect connectedState).1 with reconnectAttempts := 1 },
       ReconnectAction.reconnectAfter 5000) := by decide

/-- Claim C7 (amended): `disconnect()` is idempotent — a second call with no
intervening connect finds `ws` null, changes nothing and emits no close
event — but reconnection after an explicit disconnect is not suppressed:
the close event fired by `ws.close()` reaches `handleClose`, which
unconditionally defers to `handleReconnect`, and while
`reconnectAttempts < MAX_RECONNECT_ATTEMPTS` this schedules a reconnect
after the fixed delay. -/
theorem c7_disconnect_idempotent_reconnect_not_suppressed (s : WSState) :
    disconnect (disconnect s).1 = ((disconnect s).1, false) ∧
    (s.reconnectAttempts < MAX_RECONNECT_ATTEMPTS →
      handleClose (disconnect s).1 =
        ({ (disconnect s).1 with reconnectAttempts := s.reconnectAttempts + 1 },
         ReconnectAction.reconnectAfter RECONNECT_DELAY)) := by
  constructor
  · rcases h : s.ws with _ | u
    · simp [disconnect, h]
    · simp [disconnect, h]
  · intro h
    rcases hw : s.ws with _ | u <;>
      simp [disconnect, handleClose, handleReconnect, hw, h]

/-- Witness for the amended C7 at a concrete connected state. -/
theorem c7_witness :
    disconnect (disconnect connectedState).1 = ((disconnect connectedState).1, false) ∧
    handleClose (disconnect connectedState).1 =
      ({ (disconnect connectedState).1 with reconnectAttempts := 0 + 1 },
       ReconnectAction.reconnectAfter RECONNECT_DELAY) :=
  ⟨(c7_disconnect_idempotent_reconnect_not_suppressed connectedState).1,
   (c7_disconnect_idempotent_reconnect_not_suppressed connectedState).2 (by decide)⟩

/-- Claim C8 counterexample: at `reconnectAttempts = 5` a further close event
does not increment the counter — `handleReconnect` leaves the state
unchanged and only reports the terminal diagnostic — contradicting the
claim that each connection error/close increments `reconnectAttempts`. -/
theorem c8_counterexample :
    (handleClose exhaustedState).1.reconnectAttempts = 5 ∧
    (handleClose exhaustedState).2 = ReconnectAction.terminalDiagnostic := by decide

/-- Claim C8 (amended): a connection close (or a failed `connect()` call)
invokes `handleReconnect`; while `reconnectAttempts < 5` it increments the
counter, waits the fixed 5000 ms delay and re-invokes `connect()`; once
`reconnectAttempts` has reached 5 it makes no further attempt, leaves the
counter unchanged and reports the terminal diagnostic — so from a fresh
state exactly 5 consecutive failed attempts are made; a successful
connection open resets `reconnectAttempts` to 0. -/
theorem c8_reconnect_budget (s : WSState) :
    (s.reconnectAttempts < MAX_RECONNECT_ATTEMPTS →
       handleReconnect s =
         ({ s with reconnectAttempts := s.reconnectAttempts + 1 },
          ReconnectAction.reconnectAfter RECONNECT_DELAY)) ∧
    (MAX_RECONNECT_ATTEMPTS ≤ s.reconnectAttempts →
       handleReconnect s = (s, ReconnectAction.terminalDiagnostic)) ∧
    (handleOpen s).1.reconnectAttempts = 0 ∧
    (∀ n < MAX_RECONNECT_ATTEMPTS,
       (handleReconnect ((fun t => (handleReconnect t).1)^[n] initState)).2 =
         ReconnectAction.reconnectAfter RECONNECT_DELAY) ∧
    ((fun t => (handleReconnect t).1)^[MAX_RECONNECT_ATTEMPTS]
        initState).reconnectAttempts = MAX_RECONNECT_ATTEMPTS ∧
    (handleReconnect ((fun t => (handleReconnect t).1)^[MAX_RECONNECT_ATTEMPTS]
        initState)).2 = ReconnectAction.terminalDiagnostic := by
  refine ⟨?_, ?_, ?_, by decide, by decide, by decide⟩
  · intro h
    simp [handleReconnect, h]
  · intro h
    simp [handleReconnect, not_lt.mpr h]
  · simp [handleOpen]

/-- Witness for the amended C8 at concrete states: a first failure schedules
a retry; an exhausted state reports the terminal diagnostic. -/
theorem c8_witness :
    handleReconnect initState =
      ({ initState with reconnectAttempts := initState.reconnectAttempts + 1 },
       ReconnectAction.reconnectAfter RECONNECT_DELAY) ∧
    handleReconnect exhaustedState =
      (exhaustedState, ReconnectAction.terminalDiagnostic) :=
  ⟨(c8_reconnect_budget initState).1 (by decide),
   (c8_reconnect_budget exhaustedState).2.1 (by decide)⟩

/-- A reachable mid-window state: the state after the first admitted tick
(time 1, price 100, size 1) opened the window starting at 0. -/
def midState : WSState :=
  { ws := none, reconnectAttempts := 0,
    currentKline := some (freshKline 1 (some 100) (some 1)),
    klineStartTime := 0, klines := [], lastTickTime := 1,
    processingKline := false }

/-- Claim C1: rollover law.  With no rollover in flight and the current
kline aligned to the window start, an admitted tick whose bucket lies
strictly after the current window start triggers exactly one rollover: the
current kline is tagged with the exchange identifier and emitted exactly
once — pushed to the history buffer and then handed to the persistence
service, in that order — with `openTime` equal to the start of the closed
window, after which the incoming tick opens the new current kline; whereas
the first-ever admitted tick (current kline absent) opens a fresh kline
directly, with no finalization and no emission. -/
theorem c1_rollover_law (s : WSState) (msg : TickerMsg) (res : SaveResult)
    (hproc : s.processingKline = false)
    (halign : ∀ k0, s.currentKline = some k0 → k0.openTime = s.klineStartTime)
    (hadm : s.lastTickTime < msg.time) :
    (∀ ck, s.currentKline = some ck → s.klineStartTime < bucketOf msg.time →
       processTickerUpdate s msg res =
         ({ s with
            lastTickTime := msg.time,
            klines := pushKline (completeOf ck) s.klines,
            klineStartTime := bucketOf msg.time,
            currentKline := some (freshKline msg.time msg.price msg.last_size),
            processingKline := false },
          Effect.pushedToBuffer (completeOf ck) ::
            Effect.handedToPersistence (completeOf ck) :: saveEffects res) ∧
       pushedOf (processTickerUpdate s msg res).2 = [completeOf ck] ∧
       (completeOf ck).exchange = EXCHANGE ∧
       (completeOf ck).openTime = s.klineStartTime) ∧
    (s.currentKline = none →
       processTickerUpdate s msg res =
         ({ s with
            lastTickTime := msg.time,
            klineStartTime := bucketOf msg.time,
            currentKline := some (freshKline msg.time msg.price msg.last_size),
            processingKline := false }, [])) := by
  constructor
  · intro ck hck hbuck
    have hr := processTickerUpdate_rollover s msg res ck hck hproc hadm hbuck
    refine ⟨hr, ?_, rfl, halign ck hck⟩
    rw [hr]
    have h0 := pushedOf_saveEffects res
    simp only [pushedOf] at h0 ⊢
    simp [List.filterMap_cons, h0]
  · intro hnone
    exact processTickerUpdate_open s msg res hnone hproc hadm

/-- Witness for C1: a concrete rollover from `midState` and a concrete
first-ever tick from the initial state. -/
theorem c1_witness :
    processTickerUpdate midState ⟨60000, some 95, some 1⟩ SaveResult.success =
      ({ ws := none, reconnectAttempts := 0,
         currentKline := some (freshKline 60000 (some 95) (some 1)),
         klineStartTime := 60000,
         klines := [completeOf (freshKline 1 (some 100) (some 1))],
         lastTickTime := 60000, processingKline := false },
       [Effect.pushedToBuffer (completeOf (freshKline 1 (some 100) (some 1))),
        Effect.handedToPersistence (completeOf (freshKline 1 (some 100) (some 1)))]) ∧
    processTickerUpdate initState ⟨1, some 100, some 1⟩ SaveResult.success =
      ({ ws := none, reconnectAttempts := 0,
         currentKline := some (freshKline 1 (some 100) (some 1)),
         klineStartTime := 0, klines := [], lastTickTime := 1,
         processingKline := false }, []) :=
  ⟨((c1_rollover_law midState ⟨60000, some 95, some 1⟩ SaveResult.success rfl
      (by intro k0 hk0; obtain rfl := Option.some.inj hk0; decide)
      (by decide)).1
      (freshKline 1 (some 100) (some 1)) rfl (by decide)).1,
   (c1_rollover_law initState ⟨1, some 100, some 1⟩ SaveResult.success rfl
      (by intro k0 hk0; simp [initState] at hk0)
      (by decide)).2 rfl⟩

/-- Claim C3: along any run from the initial state in which every inbound
message carries a numeric (non-NaN) price, every candle exposed outside the
aggregator — the current kline after any fold, every kline in the history
buffer and every emitted completed kline — satisfies
`closeTime = openTime + 60000`, `low ≤ open`, `low ≤ close`, `low ≤ high`,
`open ≤ high`, `close ≤ high`, `trades ≥ 1`, and `openTime` is a multiple
of 60000 (the floor-division alignment of the opening tick time). -/
theorem c3_candle_invariants (inputs : List (TickerMsg × SaveResult))
    (hnum : ∀ x ∈ inputs, ∃ q, x.1.price = some q) :
    (∀ k, (processAll initState inputs).1.currentKline = some k → KlineInv k) ∧
    (∀ ek ∈ (processAll initState inputs).1.klines, KlineInv ek.toBaseKline) ∧
    (∀ ek ∈ pushedOf (processAll initState inputs).2, KlineInv ek.toBaseKline) := by
  obtain ⟨⟨h1, h2⟩, h3⟩ := processAll_KlineInv inputs initState
    ⟨by simp [initState], by simp [initState]⟩ hnum
  exact ⟨h1, h2, h3⟩

/-- Witness for C3: the candle opened by a concrete first tick satisfies the
invariants. -/
theorem c3_witness : KlineInv (freshKline 1 (some 100) (some 1)) :=
  (c3_candle_invariants [(⟨1, some 100, some 1⟩, SaveResult.success)]
      (by intro x hx; simp at hx; subst hx; exact ⟨100, rfl⟩)).1
    (freshKline 1 (some 100) (some 1)) (by decide)

/-- The spec scenario messages: ticks at 0 (price 100, size 1),
30000 (price 105, size 2) and 60000 (price 95, size 1), saves succeeding. -/
def scenarioMsgs : List (TickerMsg × SaveResult) :=
  [(⟨0, some 100, some 1⟩, SaveResult.success),
   (⟨30000, some 105, some 2⟩, SaveResult.success),
   (⟨60000, some 95, some 1⟩, SaveResult.success)]

/-- Claim C4 counterexample: in the spec scenario the tick at t0 = 0 is
dropped by the tick filter (the watermark starts at 0 and admission is
strict), so the candle emitted when t2 = 60000 arrives is built from t1
alone — open 105, high 105, low 105, close 105, volume 2, one trade — and
the candle claimed by the spec (open 100, high 105, low 100, close 105,
volume 3, two trades) is never emitted. -/
theorem c4_counterexample :
    (processAll initState scenarioMsgs).2 =
      [Effect.pushedToBuffer
         ⟨⟨"BTC-USD", "1m", 0, 60000, some 105, some 105, some 105, some 105,
           some 2, 1⟩, "COINBASE"⟩,
       Effect.handedToPersistence
         ⟨⟨"BTC-USD", "1m", 0, 60000, some 105, some 105, some 105, some 105,
           some 2, 1⟩, "COINBASE"⟩] ∧
    Effect.pushedToBuffer
        ⟨⟨"BTC-USD", "1m", 0, 60000, some 100, some 105, some 100, some 105,
          some 3, 2⟩, "COINBASE"⟩ ∉ (processAll initState scenarioMsgs).2 := by
  decide

/-- Claim C4 (amended): for every sequence of admitted same-window ticks
with numeric prices and sizes, the resulting current candle has `open`
equal to the first admitted price, `close` to the last price, `high`/`low`
to the maximum/minimum folded price, `volume` to the sum of the folded
sizes and `trades` to the number of folded ticks, with no emission; and in
the concrete spec scenario the t0 = 0 tick is dropped by the watermark, so
folding t2 = 60000 emits exactly one completed candle with open 105,
high 105, low 105, close 105, volume 2, one trade, openTime 0 and
closeTime 60000. -/
theorem c4_within_window_aggregation (t0 : RatTick) (ts : List RatTick)
    (h0 : 0 < t0.time)
    (hchain : List.Chain (fun a b : RatTick => a.time < b.time) t0 ts)
    (hbuck : ∀ u ∈ ts, bucketOf u.time = bucketOf t0.time) :
    (processAll initState
        ((t0 :: ts).map fun u => (u.msg, SaveResult.success))).1.currentKline =
      some ⟨"BTC-USD", "1m", bucketOf t0.time, bucketOf t0.time + 60000,
        some t0.price,
        some (ts.foldl (fun m u => max m u.price) t0.price),
        some (ts.foldl (fun m u => min m u.price) t0.price),
        some (ts.foldl (fun _ u => u.price) t0.price),
        some (ts.foldl (fun m u => m + u.size) t0.size),
        ts.length + 1⟩ ∧
    (processAll initState
        ((t0 :: ts).map fun u => (u.msg, SaveResult.success))).2 = [] ∧
    (processAll initState scenarioMsgs).2 =
      [Effect.pushedToBuffer
         ⟨⟨"BTC-USD", "1m", 0, 60000, some 105, some 105, some 105, some 105,
           some 2, 1⟩, "COINBASE"⟩,
       Effect.handedToPersistence
         ⟨⟨"BTC-USD", "1m", 0, 60000, some 105, some 105, some 105, some 105,
           some 2, 1⟩, "COINBASE"⟩] := by
  have hopen : processTickerUpdate initState t0.msg SaveResult.success =
      ({ initState with
         lastTickTime := t0.time, klineStartTime := bucketOf t0.time,
         currentKline := some (freshKline t0.time (some t0.price) (some t0.size)),
         processingKline := false }, []) := by
    have h := processTickerUpdate_open initState t0.msg SaveResult.success rfl rfl h0
    simpa [RatTick.msg] using h
  have hrest := processAll_same_window ts
    ({ initState with
       lastTickTime := t0.time, klineStartTime := bucketOf t0.time,
       currentKline := some (freshKline t0.time (some t0.price) (some t0.size)),
       processingKline := false })
    (freshKline t0.time (some t0.price) (some t0.size)) rfl
    (fun u hu => hbuck u hu)
    ((List.chain_map RatTick.time).mpr hchain)
  refine ⟨?_, ?_, by decide⟩
  · simp only [List.map_cons, processAll_cons, hopen, hrest]
    rw [show freshKline t0.time (some t0.price) (some t0.size) =
        (⟨"BTC-USD", "1m", bucketOf t0.time, bucketOf t0.time + 60000,
          some t0.price, some t0.price, some t0.price, some t0.price,
          some t0.size, 1⟩ : BaseKline) from rfl,
      foldl_updateKline]
    simp only [Option.some.injEq, BaseKline.mk.injEq, true_and, and_true]
    omega
  · simp only [List.map_cons, processAll_cons, hopen, hrest]
    simp

/-- Witness for the amended C4: the concrete admitted-tick sequence
(1, 100, 1), (30000, 105, 2) within window 0. -/
theorem c4_witness :
    (processAll initState
        (([⟨1, 100, 1⟩, ⟨30000, 105, 2⟩] : List RatTick).map
          fun u => (u.msg, SaveResult.success))).1.currentKline =
      some ⟨"BTC-USD", "1m", bucketOf (1 : ℤ), bucketOf (1 : ℤ) + 60000,
        some 100,
        some (([⟨30000, 105, 2⟩] : List RatTick).foldl (fun m u => max m u.price) 100),
        some (([⟨30000, 105, 2⟩] : List RatTick).foldl (fun m u => min m u.price) 100),
        some (([⟨30000, 105, 2⟩] : List RatTick).foldl (fun _ u => u.price) 100),
        some (([⟨30000, 105, 2⟩] : List RatTick).foldl (fun m u => m + u.size) 1),
        2⟩ :=
  (c4_within_window_aggregation ⟨1, 100, 1⟩ [⟨30000, 105, 2⟩] (by decide)
    (List.chain_cons.mpr ⟨by decide, List.Chain.nil⟩) (by decide)).1

/-- Claim C6: at a rollover the in-memory state advance is independent of
the save outcome — for every `SaveResult` the post-state equals the
post-state of a successful save, the completed candle stays in the history
buffer and the new current kline for the next window is opened; a rejection
named `ConditionalCheckFailedException` is swallowed with no log, any other
error is logged and swallowed; the step is a total function of state and
save outcome, so no failure escapes tick processing. -/
theorem c6_persistence_failure_isolation (s : WSState) (msg : TickerMsg)
    (ck : BaseKline) (res : SaveResult)
    (hproc : s.processingKline = false)
    (hck : s.currentKline = some ck)
    (hadm : s.lastTickTime < msg.time)
    (hbuck : s.klineStartTime < bucketOf msg.time) :
    (processTickerUpdate s msg res).1 =
      (processTickerUpdate s msg SaveResult.success).1 ∧
    completeOf ck ∈ (processTickerUpdate s msg res).1.klines ∧
    (processTickerUpdate s msg res).1.currentKline =
      some (freshKline msg.time msg.price msg.last_size) ∧
    ∀ n, (Effect.loggedSaveError n ∈ (processTickerUpdate s msg res).2 ↔
      (res = SaveResult.error n ∧ n ≠ "ConditionalCheckFailedException")) := by
  have hr := processTickerUpdate_rollover s msg res ck hck hproc hadm hbuck
  have hrs := processTickerUpdate_rollover s msg SaveResult.success ck hck hproc
    hadm hbuck
  rw [hr, hrs]
  refine ⟨rfl, self_mem_pushKline _ _, rfl, ?_⟩
  intro n
  cases res with
  | success =>
      constructor
      · intro hm
        simp [saveEffects] at hm
      · rintro ⟨he2, _⟩
        simp at he2
  | error m =>
      by_cases he : m = "ConditionalCheckFailedException"
      · subst he
        constructor
        · intro hm
          simp [saveEffects] at hm
        · rintro ⟨he2, hne⟩
          obtain rfl := SaveResult.error.inj he2
          exact absurd rfl hne
      · simp only [saveEffects, if_neg he]
        constructor
        · intro hm
          simp only [List.mem_cons, List.not_mem_nil, or_false] at hm
          rcases hm with hm | hm | hm
          · exact absurd hm (by simp)
          · exact absurd hm (by simp)
          · obtain rfl := Effect.loggedSaveError.inj hm
            exact ⟨rfl, he⟩
        · rintro ⟨he2, hne⟩
          obtain rfl := SaveResult.error.inj he2
          simp

/-- An unexpected rejection name used in the C6 witness. -/
def otherErrName : String := "InternalServerError"

/-- Witness for C6: a concrete rollover whose save rejects with an
unexpected error reaches the same state as a successful save and logs the
error. -/
theorem c6_witness :
    (processTickerUpdate midState ⟨60000, some 95, some 1⟩
        (SaveResult.error otherErrName)).1 =
      (processTickerUpdate midState ⟨60000, some 95, some 1⟩
        SaveResult.success).1 ∧
    Effect.loggedSaveError otherErrName ∈
      (processTickerUpdate midState ⟨60000, some 95, some 1⟩
        (SaveResult.error otherErrName)).2 := by
  have h := c6_persistence_failure_isolation midState ⟨60000, some 95, some 1⟩
    (freshKline 1 (some 100) (some 1)) (SaveResult.error otherErrName)
    rfl rfl (by decide) (by decide)
  exact ⟨h.1, (h.2.2.2 otherErrName).mpr ⟨rfl, by decide⟩⟩

/-- Claim C9 (code bug): `processTickerUpdate` applies no sentinel handling
to `last_size` — `parseFloat` of a sentinel or missing size yields NaN and
the tick is folded with that NaN size, so the candle volume becomes NaN
(`none`) instead of staying unchanged and non-negative: after a tick
(time 1, price 100, size 1) opens the window with volume 1, an admitted
same-window tick with a NaN size leaves the current candle with
`volume = none` and `trades = 2`. -/
theorem c9_sentinel_size_folds_nan :
    (processAll initState
        [(⟨1, some 100, some 1⟩, SaveResult.success),
         (⟨30000, some 100, none⟩, SaveResult.success)]).1.currentKline =
      some ⟨"BTC-USD", "1m", 0, 60000, some 100, some 100, some 100, some 100,
        none, 2⟩ := by
  decide

/-- Claim C10: the only guard in `processTickerUpdate` is the timestamp
check — every tick passing the watermark is folded regardless of its price
and size values (the current candle close always becomes the tick price),
so exposed candles can carry NaN or non-positive values: a NaN-price
NaN-size first tick opens a candle with `open = volume = none`, and a
negative-price tick opens a candle with `open = -5`. -/
theorem c10_no_price_size_validation :
    (∀ (s : WSState) (msg : TickerMsg) (res : SaveResult),
       s.processingKline = false → s.lastTickTime < msg.time →
       ((processTickerUpdate s msg res).1.currentKline.map BaseKline.close) =
         some msg.price) ∧
    ((processAll initState
        [(⟨1, none, none⟩, SaveResult.success)]).1.currentKline.map
      (fun k => (k.«open», k.volume))) = some (none, none) ∧
    ((processAll initState
        [(⟨1, some (-5), some 0⟩, SaveResult.success)]).1.currentKline.map
      BaseKline.«open») = some (some (-5)) := by
  refine ⟨?_, by decide, by decide⟩
  intro s msg res hproc hadm
  rcases hck : s.currentKline with _ | ck
  · rw [processTickerUpdate_open s msg res hck hproc hadm]
    rfl
  · by_cases hbuck : s.klineStartTime < bucketOf msg.time
    · rw [processTickerUpdate_rollover s msg res ck hck hproc hadm hbuck]
      rfl
    · push_neg at hbuck
      rw [processTickerUpdate_update s msg res ck hck hadm hbuck]
      rfl

/-- Witness for C10: an admitted tick with a negative price and NaN size is
folded and becomes the candle close. -/
theorem c10_witness :
    ((processTickerUpdate initState ⟨1, some (-7), none⟩
        SaveResult.success).1.currentKline.map BaseKline.close) =
      some (some (-7)) :=
  c10_no_price_size_validation.1 initState ⟨1, some (-7), none⟩ SaveResult.success
    rfl (by decide)

end CoinbaseWebSocket
